import Mathlib

/-!
Shallow embedding of `src/resources/codewalker_xml.py` (the Sollumz
Codewalker-XML object-mapping layer) together with theorems settling the
frozen specification claims.

Strings are modelled as `List Char`; Python floats are modelled as exact
decimal fixed-point numbers (`PyFloat`, value `mant / 10 ^ exp`) — no claim
below depends on floating-point rounding, every numeral that appears is
exactly representable.  Python exceptions are modelled with `Except PyError`.
-/

set_option autoImplicit false

namespace CodewalkerXml

/-! ### Python string primitives -/

/-- ASCII whitespace, as recognised by Python `str.strip()` (the unicode
whitespace beyond ASCII is irrelevant to this code base). -/
def isWs (c : Char) : Bool :=
  c = ' ' || c = '\t' || c = '\n' || c = '\r' || c = '\x0b' || c = '\x0c'

/-- Python `str.strip()`: drop whitespace from both ends. -/
def stripL (s : List Char) : List Char :=
  ((s.dropWhile isWs).reverse.dropWhile isWs).reverse

/-- Python `str.split(sep)` for a one-character separator: always returns at
least one (possibly empty) piece. -/
def splitCh (sep : Char) : List Char → List (List Char)
  | [] => [[]]
  | c :: rest =>
    match splitCh sep rest with
    | [] => [[]]
    | piece :: pieces =>
      if c = sep then [] :: piece :: pieces else (c :: piece) :: pieces

/-- Python `'\n'.join(lines)` (written for an arbitrary separator char). -/
def joinCh (sep : Char) : List (List Char) → List Char
  | [] => []
  | [l] => l
  | l :: ls => l ++ sep :: joinCh sep ls

/-- Python `str.replace(' ', '')`: remove every space character. -/
def removeSpaces (s : List Char) : List Char :=
  s.filter (fun c => !(c = ' '))

/-- Python `str.lower()` (ASCII). -/
def lowerL (s : List Char) : List Char :=
  s.map Char.toLower

/-! ### Numeric parsing and rendering

Python `int(str)` / `float(str)` accept optional surrounding whitespace and
an optional sign; `float` additionally accepts a decimal point.  Exotic
accepted forms (underscore separators, exponents, `inf`/`nan`) are not
modelled; no claim exercises them. -/

def digitVal (c : Char) : Option Nat :=
  if c.isDigit then some (c.toNat - '0'.toNat) else none

/-- Parse a non-empty all-digit string to a natural number. -/
def parseNatL (s : List Char) : Option Nat :=
  if s.isEmpty then none
  else s.foldl (fun acc c => acc.bind fun n => (digitVal c).map fun d => n * 10 + d) (some 0)

/-- Model of Python `int(s)`: strip, optional sign, non-empty digit run. -/
def parseIntPy (s : List Char) : Option Int :=
  match stripL s with
  | '+' :: r => (parseNatL r).map Int.ofNat
  | '-' :: r => (parseNatL r).map fun n => -(n : Int)
  | r => (parseNatL r).map Int.ofNat

/-- Exact decimal model of a Python float: the value `mant / 10 ^ exp`.
Parsing keeps it normalised (no trailing decimal zeros), so structurally
equal `PyFloat`s are exactly the value-equal parse results. -/
structure PyFloat where
  mant : Int
  exp : Nat
deriving DecidableEq

/-- Remove trailing decimal zeros, recursing on the exponent. -/
def PyFloat.normAux : Int → Nat → PyFloat
  | m, 0 => ⟨m, 0⟩
  | m, e + 1 => if m % 10 = 0 then PyFloat.normAux (m / 10) e else ⟨m, e + 1⟩

/-- Remove trailing decimal zeros: `⟨10, 1⟩` (i.e. 1.0) becomes `⟨1, 0⟩`. -/
def PyFloat.norm (f : PyFloat) : PyFloat :=
  PyFloat.normAux f.mant f.exp

/-- Digit-run value as a natural number (caller checks digits). -/
def digitsVal (s : List Char) : Nat :=
  s.foldl (fun n c => n * 10 + (c.toNat - '0'.toNat)) 0

/-- Unsigned decimal body of a float literal: `digits`, `digits.digits`,
`digits.` or `.digits` (at least one digit overall). -/
def parseDecBody (s : List Char) : Option PyFloat :=
  match splitCh '.' s with
  | [a] => (parseNatL a).map fun n => PyFloat.norm ⟨(n : Int), 0⟩
  | [a, b] =>
    if a.isEmpty && b.isEmpty then none
    else if (a.all fun c => c.isDigit) && (b.all fun c => c.isDigit) then
      some (PyFloat.norm ⟨(digitsVal a : Int) * (10 : Int) ^ b.length + (digitsVal b : Int), b.length⟩)
    else none
  | _ => none

/-- Model of Python `float(s)` restricted to plain decimal literals. -/
def parseFloatPy (s : List Char) : Option PyFloat :=
  match stripL s with
  | '+' :: r => parseDecBody r
  | '-' :: r => (parseDecBody r).map fun f => ⟨-f.mant, f.exp⟩
  | r => parseDecBody r

/-- Python `str(int)`. -/
def renderInt (i : Int) : List Char :=
  if i < 0 then '-' :: (toString (-i).toNat).toList else (toString i.toNat).toList

/-- Python `str(float)` on a normalised exact decimal: an integral float
renders as `n.0`, otherwise the digits with the decimal point inserted
(`3.5`, `0.25`, …).  Exponent notation for very large/small magnitudes is
not modelled; no theorem exercises it. -/
def renderFloat (f : PyFloat) : List Char :=
  let sign : List Char := if f.mant < 0 then ['-'] else []
  let ds : List Char := (toString f.mant.natAbs).toList
  if f.exp = 0 then sign ++ ds ++ (".0").toList
  else if ds.length ≤ f.exp then
    sign ++ '0' :: '.' :: (List.replicate (f.exp - ds.length) '0' ++ ds)
  else
    sign ++ ds.take (ds.length - f.exp) ++ '.' :: ds.drop (ds.length - f.exp)

/-! ### Python values

The closed set of Python runtime values this layer manipulates.  `pyvec` and
`pyquat` stand for `mathutils.Vector` / `mathutils.Quaternion` (both define
`__len__` returning 3 resp. 4, hence are always truthy). -/

inductive PValue where
  | pynone
  | pybool (b : Bool)
  | pyint (n : Int)
  | pyfloat (f : PyFloat)
  | pystr (s : List Char)
  | pylist (xs : List PValue)
  | pyvec (x y z : PyFloat)
  | pyquat (x y z w : PyFloat)

/-- Python truthiness of the modelled values. -/
def truthy : PValue → Bool
  | .pynone => false
  | .pybool b => b
  | .pyint n => !(n = 0)
  | .pyfloat f => !(f.mant = 0)
  | .pystr s => !s.isEmpty
  | .pylist xs => !xs.isEmpty
  | .pyvec _ _ _ => true
  | .pyquat _ _ _ _ => true

/-- The Python classes that appear in `value_types` declarations. -/
inductive PType where
  | tBool | tInt | tFloat | tStr | tList | tVec | tQuat
deriving DecidableEq

/-- Python `isinstance(v, types)` for a tuple of the modelled classes.
`bool` is a subclass of `int`, so a `pybool` is an instance of `tInt`. -/
def isInst (v : PValue) (ts : List PType) : Bool :=
  match v with
  | .pynone => false
  | .pybool _ => ts.contains .tBool || ts.contains .tInt
  | .pyint _ => ts.contains .tInt
  | .pyfloat _ => ts.contains .tFloat
  | .pystr _ => ts.contains .tStr
  | .pylist _ => ts.contains .tList
  | .pyvec _ _ _ => ts.contains .tVec
  | .pyquat _ _ _ _ => ts.contains .tQuat

/-- Python `str(v)` for the scalar values the layer stringifies.  The list /
vector renderings are placeholders: the source never stringifies those
whole values and no theorem evaluates them. -/
def pyStr : PValue → List Char
  | .pynone => ("None").toList
  | .pybool b => if b then ("True").toList else ("False").toList
  | .pyint n => renderInt n
  | .pyfloat f => renderFloat f
  | .pystr s => s
  | .pylist _ => ("[...]").toList
  | .pyvec _ _ _ => ("<Vector>").toList
  | .pyquat _ _ _ _ => ("<Quaternion>").toList

/-! ### Value coercion — `get_str_type` (codewalker_xml.py lines 33–47)

Faithful to the source, including the `return bool(value)` slip: `bool` of a
non-empty Python string is always `True`, so both `"true"` and `"false"`
(any casing) coerce to `True`. -/

def get_str_type (v : PValue) : PValue :=
  match v with
  | .pystr s =>
    if lowerL s = ("true").toList || lowerL s = ("false").toList then
      .pybool (truthy v)
    else
      match parseIntPy s with
      | some n => .pyint n
      | none =>
        match parseFloatPy s with
        | some q => .pyfloat q
        | none => v
  | _ => v

/-! ### XML element trees — `xml.etree.ElementTree.Element`

`text` / `tail` are `Option (List Char)` (Python `None` vs a string);
attributes keep insertion order, as `ET.Element` does. -/

structure XElem where
  tag : List Char
  attrib : List (List Char × List Char)
  text : Option (List Char)
  tail : Option (List Char)
  children : List XElem

/-- Python truthiness of `elem.text` combined with blank-string tests: the
source's `not elem.text or not elem.text.strip()`. -/
def blankOpt : Option (List Char) → Bool
  | none => true
  | some s => (stripL s).isEmpty

/-! ### Pretty-printer — `indent` (codewalker_xml.py lines 9–30)

The source mutates the tree in place at a `level`; `amount = "  "` and
`i = "\n" + level*amount`.  After the `for elem in elem:` loop the loop
variable `elem` is the *last child*, so lines 19–20 re-set the last child's
tail to the parent-level indent.  The functional model below mirrors each
assignment. -/

/-- The two-space indentation unit, `amount` in the source. -/
def amountChars : List Char := [' ', ' ']

/-- The string `i = "\n" + level*amount`. -/
def indentStr (level : Nat) : List Char :=
  '\n' :: (List.replicate level amountChars).flatten

/-- Lines 13–14: a blank (or absent) branch text becomes `i + amount`. -/
def branchText (level : Nat) (t : Option (List Char)) : Option (List Char) :=
  if blankOpt t then some (indentStr level ++ amountChars) else t

/-- Lines 15–16 / 19–20: a blank (or absent) tail becomes `i`. -/
def tailUpd (level : Nat) (t : Option (List Char)) : Option (List Char) :=
  if blankOpt t then some (indentStr level) else t

/-- Lines 22–23: a leaf's tail is only set at a truthy (non-zero) level. -/
def leafTail (level : Nat) (t : Option (List Char)) : Option (List Char) :=
  if !(level = 0) && blankOpt t then some (indentStr level) else t

/-- Lines 26–30: multi-line leaf text is re-indented one level deeper; the
whole text is stripped, split on newlines, each line prefixed with
`(level+1)*amount`, then rejoined with a leading newline and trailing `i`. -/
def leafText (level : Nat) : Option (List Char) → Option (List Char)
  | none => none
  | some s =>
    if !s.isEmpty && !(stripL s).isEmpty && s.contains '\n' then
      some ('\n' :: joinCh '\n' ((splitCh '\n' (stripL s)).map
        fun l => (List.replicate (level + 1) amountChars).flatten ++ l) ++ indentStr level)
    else some s

/-- Lines 19–20, applied after the recursion: re-set the **last** child's
tail to the parent-level indent when it is blank. -/
def fixLastTail (level : Nat) : List XElem → List XElem
  | [] => []
  | [e] => [{ e with tail := tailUpd level e.tail }]
  | e :: rest => e :: fixLastTail level rest

mutual

/-- The `indent` function of the source at a given `level`. -/
def indentAt (level : Nat) : XElem → XElem
  | XElem.mk tg at_ tx tl [] =>
    XElem.mk tg at_ (leafText level tx) (leafTail level tl) []
  | XElem.mk tg at_ tx tl (c :: cs) =>
    XElem.mk tg at_ (branchText level tx) (tailUpd level tl)
      (fixLastTail level (indentList (level + 1) (c :: cs)))

/-- The `for elem in elem: indent(elem, level+1)` loop. -/
def indentList (level : Nat) : List XElem → List XElem
  | [] => []
  | c :: cs => indentAt level c :: indentList level cs

end

/-- Python's `indent(elem)` with its default `level=0`. -/
def indent (e : XElem) : XElem := indentAt 0 e

/-- Text of a leaf that stays stable under repeated indentation: once the
surrounding whitespace is stripped it holds no further newline (at most one
content line).  The spec's multi-line vertex blocks violate this. -/
def okLeafText : Option (List Char) → Bool
  | none => true
  | some s => !((stripL s).contains '\n')

mutual

/-- Every leaf of the tree has single-content-line (or blank) text. -/
def okTree : XElem → Bool
  | XElem.mk _ _ tx _ [] => okLeafText tx
  | XElem.mk _ _ _ _ (c :: cs) => okForest (c :: cs)

/-- `okTree` on every tree of a forest. -/
def okForest : List XElem → Bool
  | [] => true
  | c :: cs => okTree c && okForest cs

end

/-! ### List lemmas supporting the pretty-printer analysis -/

theorem dropWhile_append_of_all {p : Char → Bool} {xs ys : List Char}
    (h : ∀ x ∈ xs, p x = true) : (xs ++ ys).dropWhile p = ys.dropWhile p := by
  induction xs with
  | nil => rfl
  | cons a l ih =>
    have ha : p a = true := h a (by simp)
    rw [List.cons_append, List.dropWhile_cons, if_pos ha]
    exact ih fun x hx => h x (by simp [hx])

theorem head?_dropWhile_not {p : Char → Bool} {l : List Char} {a : Char}
    (h : (l.dropWhile p).head? = some a) : p a = false := by
  induction l with
  | nil => simp [List.dropWhile] at h
  | cons x xs ih =>
    rw [List.dropWhile_cons] at h
    by_cases hx : p x = true
    · rw [if_pos hx] at h; exact ih h
    · rw [if_neg hx] at h
      simp only [List.head?_cons, Option.some.injEq] at h
      subst h
      exact Bool.eq_false_iff.mpr hx

theorem getLast?_cons_of_ne_nil {x : Char} {xs : List Char} (h : xs ≠ []) :
    (x :: xs).getLast? = xs.getLast? := by
  cases xs with
  | nil => exact absurd rfl h
  | cons b bs => exact List.getLast?_cons_cons

theorem getLast?_dropWhile {p : Char → Bool} {l : List Char}
    (h : l.dropWhile p ≠ []) : (l.dropWhile p).getLast? = l.getLast? := by
  induction l with
  | nil => simp [List.dropWhile] at h
  | cons x xs ih =>
    rw [List.dropWhile_cons] at h ⊢
    by_cases hx : p x = true
    · rw [if_pos hx] at h ⊢
      have hxs : xs ≠ [] := by
        intro he; rw [he] at h; exact h rfl
      rw [ih h, getLast?_cons_of_ne_nil hxs]
    · rw [if_neg hx]

theorem dropWhile_of_head_neg {p : Char → Bool} {l : List Char} {a : Char}
    (h : l.head? = some a) (ha : p a = false) : l.dropWhile p = l := by
  cases l with
  | nil => simp at h
  | cons x xs =>
    simp only [List.head?_cons, Option.some.injEq] at h
    subst h
    rw [List.dropWhile_cons, if_neg (by simp [ha])]

theorem head?_stripL_not_ws {s : List Char} {a : Char}
    (h : (stripL s).head? = some a) : isWs a = false := by
  unfold stripL at h
  rw [List.head?_reverse] at h
  have hne : (s.dropWhile isWs).reverse.dropWhile isWs ≠ [] := by
    intro he; rw [he] at h; simp at h
  rw [getLast?_dropWhile hne, List.getLast?_reverse] at h
  exact head?_dropWhile_not h

theorem getLast?_stripL_not_ws {s : List Char} {a : Char}
    (h : (stripL s).getLast? = some a) : isWs a = false := by
  unfold stripL at h
  rw [List.getLast?_reverse] at h
  exact head?_dropWhile_not h

theorem stripL_of_all_ws {s : List Char} (h : ∀ c ∈ s, isWs c = true) : stripL s = [] := by
  unfold stripL
  rw [List.dropWhile_eq_nil_iff.mpr h]
  rfl

theorem getLast?_of_ne_nil {l : List Char} (h : l ≠ []) : ∃ a, l.getLast? = some a := by
  cases hq : l.getLast? with
  | some a => exact ⟨a, rfl⟩
  | none => exact absurd (List.getLast?_eq_none_iff.mp hq) h

/-- Left-strip then right-strip a string whose whitespace padding surrounds a
stripped non-empty core: the core survives exactly. -/
theorem stripL_sandwich {pre mid post : List Char}
    (hpre : ∀ c ∈ pre, isWs c = true) (hpost : ∀ c ∈ post, isWs c = true)
    (hmid : mid ≠ [])
    (hh : ∀ a, mid.head? = some a → isWs a = false)
    (hl : ∀ a, mid.getLast? = some a → isWs a = false) :
    stripL (pre ++ (mid ++ post)) = mid := by
  obtain ⟨c, mid', rfl⟩ : ∃ c mid', mid = c :: mid' := by
    cases mid with
    | nil => exact absurd rfl hmid
    | cons c l => exact ⟨c, l, rfl⟩
  have h1 : List.dropWhile isWs (pre ++ ((c :: mid') ++ post)) = (c :: mid') ++ post := by
    rw [dropWhile_append_of_all hpre]
    exact dropWhile_of_head_neg (by simp) (hh c rfl)
  obtain ⟨d, hd⟩ := getLast?_of_ne_nil (l := c :: mid') (by simp)
  have h2 : List.dropWhile isWs ((c :: mid') ++ post).reverse = (c :: mid').reverse := by
    rw [List.reverse_append]
    rw [dropWhile_append_of_all fun x hx => hpost x (List.mem_reverse.mp hx)]
    exact dropWhile_of_head_neg (by rw [List.head?_reverse]; exact hd) (hl d hd)
  unfold stripL
  rw [h1, h2, List.reverse_reverse]

theorem splitCh_of_not_mem {sep : Char} {l : List Char} (h : sep ∉ l) : splitCh sep l = [l] := by
  induction l with
  | nil => rfl
  | cons c cs ih =>
    have hc : ¬(c = sep) := fun he => h (by simp [he])
    have hcs : sep ∉ cs := fun hm => h (by simp [hm])
    simp [splitCh, ih hcs, hc]

/-! ### Idempotence of the indentation pass (on single-content-line leaves) -/

theorem isWs_mem_pad {n : Nat} {c : Char} (h : c ∈ (List.replicate n amountChars).flatten) :
    isWs c = true := by
  rw [List.mem_flatten] at h
  obtain ⟨l, hl, hc⟩ := h
  rw [List.eq_of_mem_replicate hl] at hc
  simp only [amountChars, List.mem_cons, List.not_mem_nil, or_false] at hc
  rcases hc with rfl | rfl <;> rfl

theorem isWs_mem_indentStr {L : Nat} {c : Char} (h : c ∈ indentStr L) : isWs c = true := by
  rcases List.mem_cons.mp h with rfl | h
  · rfl
  · exact isWs_mem_pad h

theorem blankOpt_indentStr (L : Nat) : blankOpt (some (indentStr L)) = true := by
  simp [blankOpt, stripL_of_all_ws fun c hc => isWs_mem_indentStr hc]

theorem blankOpt_indentStr_amount (L : Nat) :
    blankOpt (some (indentStr L ++ amountChars)) = true := by
  have : stripL (indentStr L ++ amountChars) = [] := by
    apply stripL_of_all_ws
    intro c hc
    rcases List.mem_append.mp hc with h | h
    · exact isWs_mem_indentStr h
    · simp only [amountChars, List.mem_cons, List.not_mem_nil, or_false] at h
      rcases h with rfl | rfl <;> rfl
  simp [blankOpt, this]

theorem tailUpd_idem (L : Nat) (t : Option (List Char)) :
    tailUpd L (tailUpd L t) = tailUpd L t := by
  unfold tailUpd
  by_cases h : blankOpt t = true
  · rw [if_pos h, if_pos (blankOpt_indentStr L)]
  · rw [if_neg h, if_neg h]

theorem leafTail_idem (L : Nat) (t : Option (List Char)) :
    leafTail L (leafTail L t) = leafTail L t := by
  unfold leafTail
  by_cases h : (!(L = 0) && blankOpt t) = true
  · rw [if_pos h]
    have hL : (!(L = 0)) = true := (Bool.and_eq_true _ _ |>.mp h).1
    rw [if_pos (by rw [hL, blankOpt_indentStr L]; rfl)]
  · rw [if_neg h, if_neg h]

theorem branchText_idem (L : Nat) (t : Option (List Char)) :
    branchText L (branchText L t) = branchText L t := by
  unfold branchText
  by_cases h : blankOpt t = true
  · rw [if_pos h, if_pos (blankOpt_indentStr_amount L)]
  · rw [if_neg h, if_neg h]

theorem leafText_idem (L : Nat) (t : Option (List Char)) (h : okLeafText t = true) :
    leafText L (leafText L t) = leafText L t := by
  cases t with
  | none => rfl
  | some s =>
    have hnl : ¬('\n' ∈ stripL s) := by
      simpa [okLeafText] using h
    by_cases htr : (!s.isEmpty && !(stripL s).isEmpty && s.contains '\n') = true
    · have hmidne : stripL s ≠ [] := by
        rcases Bool.and_eq_true _ _ |>.mp htr with ⟨h1, _⟩
        rcases Bool.and_eq_true _ _ |>.mp h1 with ⟨_, h2⟩
        simpa [List.isEmpty_iff] using h2
      have hout : stripL ('\n' :: ((List.replicate (L + 1) amountChars).flatten
          ++ (stripL s ++ indentStr L))) = stripL s := by
        show stripL (('\n' :: (List.replicate (L + 1) amountChars).flatten)
          ++ (stripL s ++ indentStr L)) = stripL s
        exact stripL_sandwich
          (fun c hc => by
            rcases List.mem_cons.mp hc with rfl | hc
            · rfl
            · exact isWs_mem_pad hc)
          (fun c hc => isWs_mem_indentStr hc)
          hmidne
          (fun a ha => head?_stripL_not_ws ha)
          (fun a ha => getLast?_stripL_not_ws ha)
      simp only [leafText]
      rw [splitCh_of_not_mem hnl]
      simp only [List.map_cons, List.map_nil, joinCh]
      rw [if_pos htr]
      simp only [leafText, List.cons_append, List.append_assoc]
      rw [if_pos (by simp [hout, hmidne, List.isEmpty_iff])]
      rw [hout, splitCh_of_not_mem hnl]
      simp [joinCh, List.append_assoc]
    · simp only [leafText]
      rw [if_neg htr]
      simp only [leafText]
      rw [if_neg htr]

theorem indentAt_ne_nil (L : Nat) (tg : List Char) (a : List (List Char × List Char))
    (tx tl : Option (List Char)) (ch : List XElem) (h : ch ≠ []) :
    indentAt L (XElem.mk tg a tx tl ch) =
      XElem.mk tg a (branchText L tx) (tailUpd L tl)
        (fixLastTail L (indentList (L + 1) ch)) := by
  cases ch with
  | nil => exact absurd rfl h
  | cons c cs => rfl

theorem indentList_map (L : Nat) (cs : List XElem) :
    indentList L cs = cs.map (indentAt L) := by
  induction cs with
  | nil => rfl
  | cons c l ih => rw [indentList, ih, List.map_cons]

theorem indentList_ne_nil (L : Nat) {cs : List XElem} (h : cs ≠ []) :
    indentList L cs ≠ [] := by
  cases cs with
  | nil => exact absurd rfl h
  | cons c l => simp [indentList]

theorem fixLastTail_ne_nil (L : Nat) {cs : List XElem} (h : cs ≠ []) :
    fixLastTail L cs ≠ [] := by
  cases cs with
  | nil => exact absurd rfl h
  | cons c l => cases l <;> simp [fixLastTail]

theorem fixLastTail_cons_of_ne (L : Nat) (x : XElem) {xs : List XElem} (h : xs ≠ []) :
    fixLastTail L (x :: xs) = x :: fixLastTail L xs := by
  cases xs with
  | nil => exact absurd rfl h
  | cons y ys => rfl

/-- Re-indenting an already-indented element whose tail has been replaced by
a blank string normalises the tail to the level's own indent. -/
theorem indentAt_succ_blank_tail (L : Nat) (tg : List Char)
    (a : List (List Char × List Char)) (tx tl : Option (List Char)) (ch : List XElem)
    (hd : indentAt (L + 1) (XElem.mk tg a tx tl ch) = XElem.mk tg a tx tl ch)
    (t : Option (List Char)) (hb : blankOpt t = true) :
    indentAt (L + 1) (XElem.mk tg a tx t ch) =
      XElem.mk tg a tx (some (indentStr (L + 1))) ch := by
  cases ch with
  | nil =>
    have htx : leafText (L + 1) tx = tx := by
      have := congrArg XElem.text hd
      simpa [indentAt] using this
    show XElem.mk tg a (leafText (L + 1) tx) (leafTail (L + 1) t) [] = _
    rw [htx]
    unfold leafTail
    rw [if_pos (by rw [hb, Bool.and_true]; rfl)]
  | cons c cs =>
    have htx : branchText (L + 1) tx = tx := by
      have := congrArg XElem.text hd
      simpa [indentAt_ne_nil (L + 1) tg a tx tl (c :: cs) (by simp)] using this
    have hch : fixLastTail (L + 1) (indentList (L + 1 + 1) (c :: cs)) = c :: cs := by
      have := congrArg XElem.children hd
      simpa [indentAt_ne_nil (L + 1) tg a tx tl (c :: cs) (by simp)] using this
    rw [indentAt_ne_nil (L + 1) tg a tx t (c :: cs) (by simp)]
    rw [hch, htx]
    unfold tailUpd
    rw [if_pos hb]

/-- Stability of the post-recursion last-child tail fix: re-running the loop
and the fix over an already processed, already fixed forest is the
identity. -/
theorem fixLast_stable (L : Nat) (ds : List XElem)
    (h : ∀ d ∈ ds, indentAt (L + 1) d = d) :
    fixLastTail L (indentList (L + 1) (fixLastTail L ds)) = fixLastTail L ds := by
  induction ds with
  | nil => rfl
  | cons d rest ih =>
    cases rest with
    | cons r rs =>
      have hd : indentAt (L + 1) d = d := h d (by simp)
      have hne : fixLastTail L (r :: rs) ≠ [] := fixLastTail_ne_nil L (by simp)
      rw [fixLastTail_cons_of_ne L d (by simp)]
      rw [indentList, hd]
      rw [fixLastTail_cons_of_ne L d (indentList_ne_nil (L + 1) hne)]
      rw [ih fun x hx => h x (by simp [hx])]
    | nil =>
      obtain ⟨tg, a, tx, tl, ch⟩ := d
      have hd : indentAt (L + 1) (XElem.mk tg a tx tl ch) = XElem.mk tg a tx tl ch :=
        h _ (by simp)
      by_cases hb : blankOpt tl = true
      · show fixLastTail L (indentList (L + 1) [XElem.mk tg a tx (tailUpd L tl) ch])
          = [XElem.mk tg a tx (tailUpd L tl) ch]
        rw [show tailUpd L tl = some (indentStr L) from by unfold tailUpd; rw [if_pos hb]]
        rw [indentList]
        rw [indentAt_succ_blank_tail L tg a tx tl ch hd (some (indentStr L))
          (blankOpt_indentStr L)]
        show [XElem.mk tg a tx (tailUpd L (some (indentStr (L + 1)))) ch] = _
        rw [show tailUpd L (some (indentStr (L + 1))) = some (indentStr L) from by
          unfold tailUpd; rw [if_pos (blankOpt_indentStr (L + 1))]]
      · show fixLastTail L (indentList (L + 1) [XElem.mk tg a tx (tailUpd L tl) ch])
          = [XElem.mk tg a tx (tailUpd L tl) ch]
        rw [show tailUpd L tl = tl from by unfold tailUpd; rw [if_neg hb]]
        rw [indentList, hd]
        show [XElem.mk tg a tx (tailUpd L tl) ch] = _
        rw [show tailUpd L tl = tl from by unfold tailUpd; rw [if_neg hb]]

mutual

/-- On trees whose leaf texts hold at most one content line, a second
indentation pass is the identity on the first pass's output. -/
theorem indentAt_idem (L : Nat) (e : XElem) (h : okTree e = true) :
    indentAt L (indentAt L e) = indentAt L e := by
  cases e with
  | mk tg a tx tl ch =>
    cases ch with
    | nil =>
      have htx : okLeafText tx = true := h
      show indentAt L (XElem.mk tg a (leafText L tx) (leafTail L tl) []) = _
      show XElem.mk tg a (leafText L (leafText L tx)) (leafTail L (leafTail L tl)) [] = _
      rw [leafText_idem L tx htx, leafTail_idem L tl]
      rfl
    | cons c cs =>
      have hf : okForest (c :: cs) = true := h
      have hpt : ∀ d ∈ indentList (L + 1) (c :: cs), indentAt (L + 1) d = d :=
        indentForest_idem (L + 1) (c :: cs) hf
      rw [indentAt_ne_nil L tg a tx tl (c :: cs) (by simp)]
      rw [indentAt_ne_nil L tg a (branchText L tx) (tailUpd L tl) _
        (fixLastTail_ne_nil L (indentList_ne_nil (L + 1) (by simp)))]
      rw [branchText_idem, tailUpd_idem, fixLast_stable L _ hpt]

/-- Pointwise idempotence over the processed children of a forest. -/
theorem indentForest_idem (L : Nat) (cs : List XElem) (h : okForest cs = true) :
    ∀ d ∈ indentList L cs, indentAt L d = d := by
  cases cs with
  | nil => intro d hd; cases hd
  | cons c l =>
    have hc : okTree c = true := ((Bool.and_eq_true _ _).mp h).1
    have hl : okForest l = true := ((Bool.and_eq_true _ _).mp h).2
    intro d hd
    rw [indentList] at hd
    rcases List.mem_cons.mp hd with rfl | hd
    · exact indentAt_idem L c hc
    · exact indentForest_idem L l hl d hd

end

/-! ### Python exceptions raised (or produced) by this layer -/

inductive PyError where
  /-- Python `AttributeError` (e.g. `None.strip()`, or a missing class
  attribute such as `ValueError.read_value_error`). -/
  | attributeError
  /-- Python `TypeError`. -/
  | typeErrorF
  /-- The `ValueError` raised by `Element.read_value_error` (lines 56–58),
  carrying the offending element's tag and the property class name. -/
  | valueErrorInvalid (tag : List Char) (typeName : List Char)
  /-- The `ValueError` raised by `int()` / `float()` on a malformed token. -/
  | valueErrorParse
deriving DecidableEq

/-! ### Property model — the `ElementProperty` subclasses

Each concrete subclass is identified by a `PropKind`; an instance carries
its `tag_name` and its `value` (`ListProperty`, which needs a nested
document type, is not exercised by any claim and is not modelled). -/

inductive PropKind where
  | textK | vectorK | quatK | valueK | verticesK | flagsK
deriving DecidableEq

/-- The class-level `value_types` declarations. -/
def value_types : PropKind → List PType
  | .textK => [.tStr]
  | .vectorK => [.tVec]
  | .quatK => [.tQuat]
  | .valueK => [.tInt, .tStr, .tBool, .tFloat]
  | .verticesK => [.tList]
  | .flagsK => [.tList]

structure ElemProp where
  kind : PropKind
  tag_name : List Char
  value : PValue

/-- `ElementProperty.__init__` (lines 172–177): raises `TypeError` exactly
when the value is truthy **and** not an instance of the declared
`value_types`; otherwise stores the value unchecked. -/
def elementPropertyInit (kind : PropKind) (tag_name : List Char) (value : PValue) :
    Except PyError ElemProp :=
  if truthy value && !isInst value (value_types kind) then .error .typeErrorF
  else .ok ⟨kind, tag_name, value⟩

/-- First-match lookup in an ordered attribute list (`element.attrib`). -/
def lookupAttr (name : List Char) : List (List Char × List Char) → Option (List Char)
  | [] => none
  | (k, v) :: rest => if k = name then some v else lookupAttr name rest

/-- `element.find(tag)`: first direct child with the given tag. -/
def findChild (element : XElem) (t : List Char) : Option XElem :=
  element.children.find? fun c => decide (c.tag = t)

/-- `TextProperty.from_xml` (lines 186–188): builds
`TextProperty(element.tag, element.text)`; the constructor replaces a falsy
value (`None` or the empty string) by `""` before the type check. -/
def textPropertyFromXml (element : XElem) : Except PyError ElemProp :=
  elementPropertyInit .textK element.tag
    (.pystr (match element.text with | none => [] | some s => s))

/-- `VectorProperty.from_xml` (lines 200–205): all of x, y, z must be
attributes, else `read_value_error` raises the descriptive `ValueError`;
then each is parsed with `float()`. -/
def vectorPropertyFromXml (element : XElem) : Except PyError ElemProp :=
  if !([("x").toList, ("y").toList, ("z").toList].all
      fun k => (lookupAttr k element.attrib).isSome) then
    .error (.valueErrorInvalid element.tag ("VectorProperty").toList)
  else
    match parseFloatPy ((lookupAttr ("x").toList element.attrib).getD []),
        parseFloatPy ((lookupAttr ("y").toList element.attrib).getD []),
        parseFloatPy ((lookupAttr ("z").toList element.attrib).getD []) with
    | some x, some y, some z => elementPropertyInit .vectorK element.tag (.pyvec x y z)
    | _, _, _ => .error .valueErrorParse

/-- `QuaternionProperty.from_xml` (lines 217–222): the guard line lacks a
`return`, but `read_value_error` raises, so the behaviour matches
`VectorProperty`. -/
def quatPropertyFromXml (element : XElem) : Except PyError ElemProp :=
  if !([("x").toList, ("y").toList, ("z").toList, ("w").toList].all
      fun k => (lookupAttr k element.attrib).isSome) then
    .error (.valueErrorInvalid element.tag ("QuaternionProperty").toList)
  else
    match parseFloatPy ((lookupAttr ("x").toList element.attrib).getD []),
        parseFloatPy ((lookupAttr ("y").toList element.attrib).getD []),
        parseFloatPy ((lookupAttr ("z").toList element.attrib).getD []),
        parseFloatPy ((lookupAttr ("w").toList element.attrib).getD []) with
    | some x, some y, some z, some w => elementPropertyInit .quatK element.tag (.pyquat x y z w)
    | _, _, _, _ => .error .valueErrorParse

/-- `ValueProperty.from_xml` (lines 338–343).  On a missing `value`
attribute the source evaluates `ValueError.read_value_error(element)`; the
builtin `ValueError` class has no attribute `read_value_error`, so Python
raises a plain `AttributeError` — not the intended descriptive
`ValueError` naming the tag. -/
def valuePropertyFromXml (element : XElem) : Except PyError ElemProp :=
  match lookupAttr ("value").toList element.attrib with
  | none => .error .attributeError
  | some raw => elementPropertyInit .valueK element.tag (get_str_type (.pystr raw))

/-- One line of a `VerticesProperty` text block (lines 275–279): strip,
split on commas, demand exactly three coordinates, parse each with
`float()`. -/
def parseVertexLine (tag : List Char) (line : List Char) : Except PyError PValue :=
  let coords := splitCh ',' (stripL line)
  if coords.length = 3 then
    match parseFloatPy (coords.getD 0 []), parseFloatPy (coords.getD 1 []),
        parseFloatPy (coords.getD 2 []) with
    | some x, some y, some z => .ok (.pyvec x y z)
    | _, _, _ => .error .valueErrorParse
  else .error (.valueErrorInvalid tag ("VerticesProperty").toList)

def parseVertexLines (tag : List Char) : List (List Char) → Except PyError (List PValue)
  | [] => .ok []
  | line :: rest => do
    let v ← parseVertexLine tag line
    let vs ← parseVertexLines tag rest
    .ok (v :: vs)

/-- `VerticesProperty.from_xml` (lines 269–281).  `element.text.strip()` on
an absent text raises `AttributeError` (`None` has no `strip`).  The
`len(text) > 0` guard is vacuous — `str.split` never returns an empty
list — but is kept for fidelity. -/
def verticesPropertyFromXml (element : XElem) : Except PyError ElemProp :=
  match element.text with
  | none => .error .attributeError
  | some s =>
    let text := splitCh '\n' (stripL s)
    if text.length > 0 then
      (parseVertexLines element.tag text).map fun vs =>
        ⟨.verticesK, element.tag, .pylist vs⟩
    else .ok ⟨.verticesK, element.tag, .pylist []⟩

/-- `FlagsProperty.from_xml` (lines 306–317): on truthy, non-blank text,
remove spaces and split on commas (the `len(text) > 0` guard is again
vacuous); otherwise the flag list stays empty. -/
def flagsPropertyFromXml (element : XElem) : Except PyError ElemProp :=
  match element.text with
  | none => .ok ⟨.flagsK, element.tag, .pylist []⟩
  | some s =>
    if !s.isEmpty && !(stripL s).isEmpty then
      let text := splitCh ',' (removeSpaces s)
      if text.length > 0 then
        .ok ⟨.flagsK, element.tag, .pylist (text.map PValue.pystr)⟩
      else .error (.valueErrorInvalid element.tag ("FlagsProperty").toList)
    else .ok ⟨.flagsK, element.tag, .pylist []⟩

/-- `type(obj_element).from_xml(child)` — dispatch on the property class. -/
def propFromXml (kind : PropKind) (element : XElem) : Except PyError ElemProp :=
  match kind with
  | .textK => textPropertyFromXml element
  | .vectorK => vectorPropertyFromXml element
  | .quatK => quatPropertyFromXml element
  | .valueK => valuePropertyFromXml element
  | .verticesK => verticesPropertyFromXml element
  | .flagsK => flagsPropertyFromXml element

/-- Join with a multi-character separator (Python `", ".join`). -/
def joinSep (sep : List Char) : List (List Char) → List Char
  | [] => []
  | [l] => l
  | l :: ls => l ++ sep ++ joinSep sep ls

/-- `TextProperty.to_xml` (lines 190–191): `ET.Element(self.tag_name,
text=self.value)` passes `text` as an element **attribute** keyword, not as
inner text — the produced element has an attribute named `text` and empty
inner text.  (A non-string value would only fail on later serialisation;
modelled as a TypeError, never exercised.) -/
def textPropertyToXml (p : ElemProp) : Except PyError XElem :=
  match p.value with
  | .pystr s => .ok ⟨p.tag_name, [(("text").toList, s)], none, none, []⟩
  | _ => .error .typeErrorF

/-- `VectorProperty.to_xml` (lines 207–208); `self.value.x` on a non-Vector
raises `AttributeError`. -/
def vectorPropertyToXml (p : ElemProp) : Except PyError XElem :=
  match p.value with
  | .pyvec x y z => .ok ⟨p.tag_name,
      [(("x").toList, renderFloat x), (("y").toList, renderFloat y),
        (("z").toList, renderFloat z)], none, none, []⟩
  | _ => .error .attributeError

/-- `QuaternionProperty.to_xml` (lines 224–225). -/
def quatPropertyToXml (p : ElemProp) : Except PyError XElem :=
  match p.value with
  | .pyquat x y z w => .ok ⟨p.tag_name,
      [(("x").toList, renderFloat x), (("y").toList, renderFloat y),
        (("z").toList, renderFloat z), (("w").toList, renderFloat w)], none, none, []⟩
  | _ => .error .attributeError

/-- `ValueProperty.to_xml` (lines 345–346): one `value` attribute holding
`str(self.value)`. -/
def valuePropertyToXml (p : ElemProp) : XElem :=
  ⟨p.tag_name, [(("value").toList, pyStr p.value)], none, none, []⟩

/-- The loop body of `VerticesProperty.to_xml` (lines 287–295): each vertex
must be a `Vector` (else `TypeError`), and contributes one
`x, y, z` line terminated by a newline. -/
def renderVertices : List PValue → Except PyError (List Char)
  | [] => .ok []
  | v :: rest =>
    match v with
    | .pyvec x y z => (renderVertices rest).map fun b =>
        renderFloat x ++ (", ").toList ++ renderFloat y ++ (", ").toList
          ++ renderFloat z ++ '\n' :: b
    | _ => .error .typeErrorF

/-- `VerticesProperty.to_xml` (lines 284–297): text starts with a bare
newline, then one line per vertex. -/
def verticesPropertyToXml (p : ElemProp) : Except PyError XElem :=
  match p.value with
  | .pylist vs => (renderVertices vs).map fun body =>
      ⟨p.tag_name, [], some ('\n' :: body), none, []⟩
  | _ => .error .typeErrorF

/-- `FlagsProperty.to_xml` (lines 320–329): a non-string item makes the
method *return* (not raise) a `TypeError` instance; modelled as an error
outcome.  An empty list leaves the element's text absent. -/
def flagsPropertyToXml (p : ElemProp) : Except PyError XElem :=
  match p.value with
  | .pylist items =>
    if items.all fun it => match it with | .pystr _ => true | _ => false then
      .ok ⟨p.tag_name, [],
        (if items.length > 0 then
          some (joinSep ((", ").toList)
            (items.map fun it => match it with | .pystr s => s | _ => []))
        else none), none, []⟩
    else .error .typeErrorF
  | _ => .error .typeErrorF

/-- `self.to_xml()` — dispatch on the property class. -/
def propToXml (p : ElemProp) : Except PyError XElem :=
  match p.kind with
  | .textK => textPropertyToXml p
  | .vectorK => vectorPropertyToXml p
  | .quatK => quatPropertyToXml p
  | .valueK => .ok (valuePropertyToXml p)
  | .verticesK => verticesPropertyToXml p
  | .flagsK => flagsPropertyToXml p

/-! ### Document model — `ElementTree`

A concrete `ElementTree` subclass is modelled by its declared tag plus the
ordered field dictionary of a default-constructed instance (`vars(new)`):
each entry is an `ElementProperty` instance, an `AttributeProperty`
instance, or a plain Python value. -/

inductive DocField where
  /-- A field holding an `Element` instance (here: an `ElementProperty`). -/
  | prop (p : ElemProp)
  /-- A field holding an `AttributeProperty` (its `name` and raw `_value`). -/
  | attr (name : List Char) (raw : PValue)
  /-- Any other attribute value (skipped by the codec loops). -/
  | plainF (v : PValue)

/-- Ordered `vars(instance)` dictionary. -/
abbrev DocFields : Type := List (List Char × DocField)

/-- The per-field body of the `ElementTree.from_xml` loop (lines 95–104):
an `Element`-typed field is replaced by re-reading the first child carrying
its tag (the root's own tag is *not* consulted); an `AttributeProperty`
field has its value set only when the attribute is present **and** the
class tag equals the element's tag; other fields are left alone. -/
def readField (clsTag : List Char) (element : XElem) : DocField → Except PyError DocField
  | .prop p =>
    (match findChild element p.tag_name with
    | some child =>
      if p.tag_name = child.tag then
        (propFromXml p.kind child).map DocField.prop
      else .ok (.prop p)
    | none => .ok (.prop p))
  | .attr aname raw =>
    if (lookupAttr aname element.attrib).isSome && clsTag = element.tag then
      .ok (.attr aname (.pystr ((lookupAttr aname element.attrib).getD [])))
    else .ok (.attr aname raw)
  | .plainF v => .ok (.plainF v)

/-- `ElementTree.from_xml` (lines 91–106): walk the default instance's
fields in declaration order, reading each through `readField`.  Fields
matched by nothing keep their defaults; a property parse error propagates
as the raised exception. -/
def etFromXml (clsTag : List Char) (defaults : DocFields) (element : XElem) :
    Except PyError DocFields :=
  match defaults with
  | [] => .ok []
  | (name, f) :: rest => do
    let f2 ← readField clsTag element f
    let rest2 ← etFromXml clsTag rest element
    .ok ((name, f2) :: rest2)

/-- `root.set(name, value)`: replace an existing attribute in place, else
append. -/
def setAttrList (attrib : List (List Char × List Char)) (k v : List Char) :
    List (List Char × List Char) :=
  match attrib with
  | [] => [(k, v)]
  | (k0, v0) :: rest => if k0 = k then (k, v) :: rest else (k0, v0) :: setAttrList rest k v

/-- The field loop of `ElementTree.to_xml` (lines 110–118): `Element`
fields append their serialised child, `AttributeProperty` fields set
`str(child.value)` (the getter applies `get_str_type` to the raw value),
anything else is skipped. -/
def etToXmlAux (fields : DocFields) (root : XElem) : Except PyError XElem :=
  match fields with
  | [] => .ok root
  | (_, f) :: rest =>
    match f with
    | .prop p => do
      let child ← propToXml p
      etToXmlAux rest ⟨root.tag, root.attrib, root.text, root.tail,
        root.children ++ [child]⟩
    | .attr aname raw =>
      etToXmlAux rest ⟨root.tag,
        setAttrList root.attrib aname (pyStr (get_str_type raw)),
        root.text, root.tail, root.children⟩
    | .plainF _ => etToXmlAux rest root

/-- `ElementTree.to_xml`: start from `ET.Element(self.tag_name)`. -/
def etToXml (clsTag : List Char) (fields : DocFields) : Except PyError XElem :=
  etToXmlAux fields ⟨clsTag, [], none, none, []⟩

/-- First-match lookup in the ordered field dictionary. -/
def lookupField (name : List Char) : DocFields → Option DocField
  | [] => none
  | (n, f) :: rest => if n = name then some f else lookupField name rest

/-- `ElementTree.__getattribute__` with `onlyValue=True` (lines 120–132):
wrapper fields are unwrapped to their value (the `AttributeProperty` getter
applies `get_str_type` to the raw value); the `AttributeError` of a missing
attribute is caught and `None` returned. -/
def etGetattr (fields : DocFields) (name : List Char) : PValue :=
  match lookupField name fields with
  | none => .pynone
  | some (.prop p) => p.value
  | some (.attr _ raw) => get_str_type raw
  | some (.plainF v) => v

/-- A value appearing on the right-hand side of an attribute assignment:
either a plain Python value or a property-wrapper instance. -/
inductive PyAssign where
  | plain (v : PValue)
  | propW (p : ElemProp)
  | attrW (name : List Char) (raw : PValue)

/-- `isinstance(value, (ElementProperty, AttributeProperty))`. -/
def isWrapperAssign : PyAssign → Bool
  | .plain _ => false
  | .propW _ => true
  | .attrW _ _ => true

def fieldOfAssign : PyAssign → DocField
  | .plain v => .plainF v
  | .propW p => .prop p
  | .attrW n r => .attr n r

/-- `isinstance(obj, (ElementProperty, AttributeProperty))` on the stored
field. -/
def fieldIsWrapper : DocField → Bool
  | .prop _ => true
  | .attr _ _ => true
  | .plainF _ => false

/-- Python truthiness of the stored field object: wrapper instances define
neither `__bool__` nor `__len__` and are therefore always truthy. -/
def fieldTruthy : DocField → Bool
  | .prop _ => true
  | .attr _ _ => true
  | .plainF v => truthy v

/-- `obj.value = value` on a wrapper: `ElementProperty.value` is a plain
attribute (no validation on write); `AttributeProperty.value` has a setter
storing `_value`. -/
def setFieldValue (f : DocField) (v : PValue) : DocField :=
  match f with
  | .prop p => .prop ⟨p.kind, p.tag_name, v⟩
  | .attr n _ => .attr n v
  | .plainF _ => .plainF v

/-- Replace the first binding of `name`, preserving dictionary order. -/
def updateField : DocFields → List Char → DocField → DocFields
  | [], _, _ => []
  | (n, f) :: rest, name, f2 =>
    if n = name then (n, f2) :: rest else (n, f) :: updateField rest name f2

/-- `ElementTree.__setattr__` (lines 134–142): when the existing attribute
is a (truthy) wrapper and the assigned value is not itself a wrapper, only
the wrapper's stored value is replaced and the wrapper object is re-bound
in place; otherwise the attribute is rebound to the assigned value (a
missing attribute is simply created). -/
def etSetattr (fields : DocFields) (name : List Char) (value : PyAssign) : DocFields :=
  match lookupField name fields with
  | some f =>
    if fieldTruthy f && fieldIsWrapper f && !isWrapperAssign value then
      match value with
      | .plain v => updateField fields name (setFieldValue f v)
      | .propW p => updateField fields name (.prop p)
      | .attrW n r => updateField fields name (.attr n r)
    else updateField fields name (fieldOfAssign value)
  | none => fields ++ [(name, fieldOfAssign value)]

/-! ### Shared lemmas about the document codec -/

/-- Replacing a present field and looking it up again yields the new
field. -/
theorem lookupField_updateField (fields : DocFields) (name : List Char) (f f2 : DocField)
    (h : lookupField name fields = some f) :
    lookupField name (updateField fields name f2) = some f2 := by
  induction fields with
  | nil => simp [lookupField] at h
  | cons nf rest ih =>
    obtain ⟨n, g⟩ := nf
    by_cases hn : n = name
    · simp [lookupField, updateField, hn]
    · rw [lookupField, if_neg hn] at h
      rw [updateField, if_neg hn, lookupField, if_neg hn]
      exact ih h

/-- With a mismatched class tag, a field reads exactly as from the same
element stripped of all its attributes. -/
theorem readField_wrong_tag (clsTag : List Char) (element : XElem)
    (h : ¬(clsTag = element.tag)) (f : DocField) :
    readField clsTag element f =
      readField clsTag ⟨element.tag, [], element.text, element.tail, element.children⟩ f := by
  cases f with
  | prop p => rfl
  | attr aname raw =>
    simp [readField, h, lookupAttr]
  | plainF v => rfl

/-- `from_xml` against a root with the wrong tag behaves exactly as if the
root carried no attributes at all. -/
theorem etFromXml_wrong_tag (clsTag : List Char) (defaults : DocFields) (element : XElem)
    (h : ¬(clsTag = element.tag)) :
    etFromXml clsTag defaults element =
      etFromXml clsTag defaults
        ⟨element.tag, [], element.text, element.tail, element.children⟩ := by
  induction defaults with
  | nil => rfl
  | cons nf rest ih =>
    obtain ⟨name, f⟩ := nf
    show (readField clsTag element f).bind _ = (readField clsTag _ f).bind _
    rw [readField_wrong_tag clsTag element h f]
    cases readField clsTag ⟨element.tag, [], element.text, element.tail, element.children⟩ f with
    | error e => rfl
    | ok f2 =>
      show (etFromXml clsTag rest element).bind _ = (etFromXml clsTag rest _).bind _
      rw [ih]

/-! ### Claim theorems -/

/-- Claim C1 (status: code_bug).  The spec demands that every casing of
`"false"` coerces to the boolean `false`; the source's `return bool(value)`
takes the truthiness of the (non-empty) *string*, so `"false"`, `"FALSE"`
and `"False"` all coerce to `True`.  (Casings of `"true"` do coerce to
`True`, and non-boolean inputs do fall through to int, float, then text —
only the `false` branch diverges.) -/
theorem claimC1_false_literal_coerces_to_True :
    get_str_type (.pystr ("false").toList) = .pybool true
    ∧ get_str_type (.pystr ("FALSE").toList) = .pybool true
    ∧ get_str_type (.pystr ("False").toList) = .pybool true
    ∧ get_str_type (.pystr ("true").toList) = .pybool true
    ∧ get_str_type (.pystr ("17").toList) = .pyint 17
    ∧ get_str_type (.pystr ("2.5").toList) = .pyfloat ⟨25, 1⟩
    ∧ get_str_type (.pystr ("abc").toList) = .pystr ("abc").toList :=
  ⟨rfl, rfl, rfl, rfl, rfl, rfl, rfl⟩

/-- Claim C2 (status: code_bug).  Reading back a written document does not
reproduce it field-for-field: `TextProperty.to_xml` passes `text=` as an
`ET.Element` *keyword argument*, producing an XML **attribute** named
`text`, while `TextProperty.from_xml` reads the element's inner text — so a
document holding a `TextProperty` with value `"foo"` round-trips to the
empty string. -/
theorem claimC2_roundtrip_drops_text :
    (etToXml ("Doc").toList
        [(("name").toList, .prop ⟨.textK, ("Name").toList, .pystr ("foo").toList⟩)]).bind
      (etFromXml ("Doc").toList
        [(("name").toList, .prop ⟨.textK, ("Name").toList, .pystr []⟩)])
      = .ok [(("name").toList, .prop ⟨.textK, ("Name").toList, .pystr []⟩)]
    ∧ ("foo").toList ≠ ([] : List Char) :=
  ⟨rfl, by decide⟩

/-- Claim C3, counterexample.  Reading a root element whose tag (`Wrong`)
differs from the Document's declared tag (`Doc`) does **not** fail — no
`UnexpectedRootTag` error exists anywhere in the code — and an
element-bound field *is* populated from a matching child. -/
theorem claimC3_counterexample :
    etFromXml ("Doc").toList
      [(("name").toList, .prop ⟨.textK, ("Name").toList, .pystr []⟩)]
      ⟨("Wrong").toList, [], none, none,
        [⟨("Name").toList, [], some ("hello").toList, none, []⟩]⟩
      = .ok [(("name").toList, .prop ⟨.textK, ("Name").toList, .pystr ("hello").toList⟩)]
    ∧ ("Doc").toList ≠ ("Wrong").toList :=
  ⟨rfl, by decide⟩

/-- Claim C3 as amended (status: corrected).  A mismatched root tag is not
an error: `from_xml` consults the root's tag only to gate attribute
population, so reading behaves exactly as if the element carried no
attributes — attribute-bound fields keep their defaults while element-bound
fields are still read from matching children. -/
theorem claimC3_amended (clsTag : List Char) (defaults : DocFields) (element : XElem)
    (h : ¬(clsTag = element.tag)) :
    etFromXml clsTag defaults element =
      etFromXml clsTag defaults
        ⟨element.tag, [], element.text, element.tail, element.children⟩ :=
  etFromXml_wrong_tag clsTag defaults element h

/-- Witness for the amended claim C3 at a concrete wrong-tag element with a
populated attribute. -/
theorem claimC3_witness :
    etFromXml ("Doc").toList
      [(("flag").toList, .attr ("flag").toList (.pystr ("0").toList))]
      ⟨("Wrong").toList, [(("flag").toList, ("1").toList)], none, none, []⟩
      = etFromXml ("Doc").toList
        [(("flag").toList, .attr ("flag").toList (.pystr ("0").toList))]
        ⟨("Wrong").toList, [], none, none, []⟩ :=
  claimC3_amended ("Doc").toList _ _ (by decide)

/-- Claim C4, counterexample.  The indentation pass is not idempotent on a
leaf whose text has two content lines: the second application re-indents the
interior line one level deeper (`"\n  1, 2, 3\n  4, 5, 6\n"` becomes
`"\n  1, 2, 3\n    4, 5, 6\n"`). -/
theorem claimC4_counterexample :
    indent (indent ⟨("V").toList, [], some ("1, 2, 3\n4, 5, 6\n").toList, none, []⟩)
      ≠ indent ⟨("V").toList, [], some ("1, 2, 3\n4, 5, 6\n").toList, none, []⟩ :=
  fun h => absurd (congrArg XElem.text h) (by decide)

/-- Claim C4 as amended (status: corrected).  The indentation pass is
idempotent on every tree in which no leaf element's *stripped* text still
contains a newline (i.e. at most one content line per leaf); a multi-line
leaf block violates this and gains indentation on interior lines at each
pass. -/
theorem claimC4_amended (e : XElem) (h : okTree e = true) :
    indent (indent e) = indent e :=
  indentAt_idem 0 e h

/-- Witness for the amended claim C4 on a concrete two-level tree with a
single-content-line leaf text. -/
theorem claimC4_witness :
    okTree ⟨("A").toList, [], none, none,
        [⟨("B").toList, [], some ("abc\n").toList, none, []⟩]⟩ = true
    ∧ indent (indent ⟨("A").toList, [], none, none,
        [⟨("B").toList, [], some ("abc\n").toList, none, []⟩]⟩)
      = indent ⟨("A").toList, [], none, none,
        [⟨("B").toList, [], some ("abc\n").toList, none, []⟩]⟩ :=
  ⟨by decide, claimC4_amended _ (by decide)⟩

/-- Claim C5 (status: code_bug).  On an element lacking the `value`
attribute, `ValueProperty.from_xml` evaluates
`ValueError.read_value_error(element)`; the builtin `ValueError` class has
no attribute `read_value_error`, so the raised exception is a bare
`AttributeError` — it never silently substitutes a default, but it is not
the descriptive `ValueError` naming the offending tag and expected shape. -/
theorem claimC5_missing_value_attr (element : XElem)
    (h : lookupAttr ("value").toList element.attrib = none) :
    valuePropertyFromXml element = .error .attributeError
    ∧ ∀ tag ty, valuePropertyFromXml element ≠ .error (.valueErrorInvalid tag ty) := by
  unfold valuePropertyFromXml
  rw [h]
  exact ⟨rfl, fun tag ty hne => by simp at hne⟩

/-- Witness for claim C5 at a concrete attribute-free element. -/
theorem claimC5_witness :
    valuePropertyFromXml ⟨("Foo").toList, [], none, none, []⟩ = .error .attributeError :=
  (claimC5_missing_value_attr ⟨("Foo").toList, [], none, none, []⟩ rfl).1

/-- Claim C6 (status: confirmed).  The text `"1, 2, 3\n4, 5, 6\n"` reads to
exactly the two vectors (1,2,3) and (4,5,6); writing that sequence produces
one `x, y, z` line per vertex (floats rendered as `1.0` etc.), and reading
the written element back yields the same two vectors — semantic equality up
to whitespace and numeral formatting. -/
theorem claimC6_vertices_roundtrip :
    verticesPropertyFromXml
        ⟨("Vertices").toList, [], some ("1, 2, 3\n4, 5, 6\n").toList, none, []⟩
      = .ok ⟨.verticesK, ("Vertices").toList,
          .pylist [.pyvec ⟨1, 0⟩ ⟨2, 0⟩ ⟨3, 0⟩, .pyvec ⟨4, 0⟩ ⟨5, 0⟩ ⟨6, 0⟩]⟩
    ∧ verticesPropertyToXml ⟨.verticesK, ("Vertices").toList,
          .pylist [.pyvec ⟨1, 0⟩ ⟨2, 0⟩ ⟨3, 0⟩, .pyvec ⟨4, 0⟩ ⟨5, 0⟩ ⟨6, 0⟩]⟩
      = .ok ⟨("Vertices").toList, [], some ("\n1.0, 2.0, 3.0\n4.0, 5.0, 6.0\n").toList,
          none, []⟩
    ∧ (verticesPropertyToXml ⟨.verticesK, ("Vertices").toList,
          .pylist [.pyvec ⟨1, 0⟩ ⟨2, 0⟩ ⟨3, 0⟩, .pyvec ⟨4, 0⟩ ⟨5, 0⟩ ⟨6, 0⟩]⟩).bind
        verticesPropertyFromXml
      = .ok ⟨.verticesK, ("Vertices").toList,
          .pylist [.pyvec ⟨1, 0⟩ ⟨2, 0⟩ ⟨3, 0⟩, .pyvec ⟨4, 0⟩ ⟨5, 0⟩ ⟨6, 0⟩]⟩ :=
  ⟨rfl, rfl, rfl⟩

/-- Claim C7 (status: confirmed).  Assigning a plain value to a
property-backed field replaces only the value stored inside the existing
wrapper — same wrapper class, tag and dictionary position — and attribute
access then returns a plain value, never the wrapper: the assigned value
itself for an `ElementProperty` field, its coercion (the
`AttributeProperty.value` getter applies `get_str_type`) for an
attribute-backed field. -/
theorem claimC7_plain_assignment (fields : DocFields) (name : List Char) (v : PValue) :
    (∀ k tg old, lookupField name fields = some (.prop ⟨k, tg, old⟩) →
      etSetattr fields name (.plain v) = updateField fields name (.prop ⟨k, tg, v⟩)
      ∧ etGetattr (etSetattr fields name (.plain v)) name = v)
    ∧ (∀ an old, lookupField name fields = some (.attr an old) →
      etSetattr fields name (.plain v) = updateField fields name (.attr an v)
      ∧ etGetattr (etSetattr fields name (.plain v)) name = get_str_type v) := by
  constructor
  · intro k tg old h
    have hset : etSetattr fields name (.plain v)
        = updateField fields name (.prop ⟨k, tg, v⟩) := by
      unfold etSetattr
      rw [h]
      rfl
    refine ⟨hset, ?_⟩
    rw [hset]
    unfold etGetattr
    rw [lookupField_updateField fields name _ _ h]
  · intro an old h
    have hset : etSetattr fields name (.plain v)
        = updateField fields name (.attr an v) := by
      unfold etSetattr
      rw [h]
      rfl
    refine ⟨hset, ?_⟩
    rw [hset]
    unfold etGetattr
    rw [lookupField_updateField fields name _ _ h]

/-- Witness for claim C7: assigning a plain vector into a
`VectorProperty`-backed field keeps the wrapper and stores the value. -/
theorem claimC7_witness :
    etSetattr [(("pos").toList, .prop ⟨.vectorK, ("Pos").toList, .pyvec ⟨1, 0⟩ ⟨2, 0⟩ ⟨3, 0⟩⟩)]
        ("pos").toList (.plain (.pyvec ⟨7, 0⟩ ⟨8, 0⟩ ⟨9, 0⟩))
      = [(("pos").toList, .prop ⟨.vectorK, ("Pos").toList, .pyvec ⟨7, 0⟩ ⟨8, 0⟩ ⟨9, 0⟩⟩)]
    ∧ etGetattr (etSetattr
        [(("pos").toList, .prop ⟨.vectorK, ("Pos").toList, .pyvec ⟨1, 0⟩ ⟨2, 0⟩ ⟨3, 0⟩⟩)]
        ("pos").toList (.plain (.pyvec ⟨7, 0⟩ ⟨8, 0⟩ ⟨9, 0⟩))) ("pos").toList
      = .pyvec ⟨7, 0⟩ ⟨8, 0⟩ ⟨9, 0⟩ :=
  (claimC7_plain_assignment
    [(("pos").toList, .prop ⟨.vectorK, ("Pos").toList, .pyvec ⟨1, 0⟩ ⟨2, 0⟩ ⟨3, 0⟩⟩)]
    ("pos").toList (.pyvec ⟨7, 0⟩ ⟨8, 0⟩ ⟨9, 0⟩)).1 .vectorK ("Pos").toList
    (.pyvec ⟨1, 0⟩ ⟨2, 0⟩ ⟨3, 0⟩) rfl

/-- Claim C8 (status: confirmed).  `__getattribute__` catches the
`AttributeError` of an undefined attribute and returns `None`: access to any
name not bound on the instance silently yields an absent value. -/
theorem claimC8_missing_attribute_returns_None (fields : DocFields) (name : List Char)
    (h : lookupField name fields = none) :
    etGetattr fields name = .pynone := by
  unfold etGetattr
  rw [h]

/-- Witness for claim C8 at a concrete instance and unbound name. -/
theorem claimC8_witness :
    etGetattr [(("pos").toList, .prop ⟨.vectorK, ("Pos").toList, .pyvec ⟨1, 0⟩ ⟨2, 0⟩ ⟨3, 0⟩⟩)]
      ("missing").toList = .pynone :=
  claimC8_missing_attribute_returns_None _ ("missing").toList rfl

/-- Claim C9 (status: confirmed).  `ElementProperty.__init__` raises
`TypeError` exactly when the supplied value is truthy and not an instance of
the declared `value_types`; every falsy value — `False`, `0`, `0.0`, `""`,
`[]`, `None` — is accepted unchecked, whatever the declared types. -/
theorem claimC9_init_typeerror_iff (k : PropKind) (tag : List Char) (v : PValue) :
    (elementPropertyInit k tag v = .error .typeErrorF
      ↔ truthy v = true ∧ isInst v (value_types k) = false)
    ∧ (truthy v = false → elementPropertyInit k tag v = .ok ⟨k, tag, v⟩)
    ∧ elementPropertyInit k tag (.pybool false) = .ok ⟨k, tag, .pybool false⟩
    ∧ elementPropertyInit k tag (.pyint 0) = .ok ⟨k, tag, .pyint 0⟩
    ∧ elementPropertyInit k tag (.pyfloat ⟨0, 0⟩) = .ok ⟨k, tag, .pyfloat ⟨0, 0⟩⟩
    ∧ elementPropertyInit k tag (.pystr []) = .ok ⟨k, tag, .pystr []⟩
    ∧ elementPropertyInit k tag (.pylist []) = .ok ⟨k, tag, .pylist []⟩
    ∧ elementPropertyInit k tag .pynone = .ok ⟨k, tag, .pynone⟩ := by
  refine ⟨?_, ?_, rfl, rfl, rfl, rfl, rfl, rfl⟩
  · unfold elementPropertyInit
    by_cases h : (truthy v && !isInst v (value_types k)) = true
    · rw [if_pos h]
      simp only [Bool.and_eq_true, Bool.not_eq_true'] at h
      simp [h]
    · rw [if_neg h]
      simp only [Bool.and_eq_true, Bool.not_eq_true'] at h
      constructor
      · intro he; cases he
      · intro hc; exact absurd hc h
  · intro hf
    unfold elementPropertyInit
    rw [if_neg (by simp [hf])]

/-- Witness for claim C9: a truthy value of the wrong class is rejected, a
falsy value of the wrong class is accepted. -/
theorem claimC9_witness :
    elementPropertyInit .vectorK ("P").toList (.pystr ("oops").toList) = .error .typeErrorF
    ∧ elementPropertyInit .vectorK ("P").toList (.pylist []) =
        .ok ⟨.vectorK, ("P").toList, .pylist []⟩ :=
  ⟨(claimC9_init_typeerror_iff .vectorK ("P").toList
      (.pystr ("oops").toList)).1.mpr ⟨rfl, rfl⟩,
    (claimC9_init_typeerror_iff .vectorK ("P").toList (.pylist [])).2.1 rfl⟩

/-- Claim C10 (status: confirmed).  `VerticesProperty.from_xml` fails on
every element whose text is absent (`None.strip()` raises
`AttributeError`), empty, or whitespace-only (the single empty line splits
into one empty coordinate token, not three); writing the empty vertex list
produces text `"\n"`, which is itself whitespace-only — so the empty list
does not round-trip. -/
theorem claimC10_blank_text_fails (element : XElem) :
    (element.text = none → verticesPropertyFromXml element = .error .attributeError)
    ∧ (∀ s, element.text = some s → stripL s = [] →
        verticesPropertyFromXml element
          = .error (.valueErrorInvalid element.tag ("VerticesProperty").toList))
    ∧ verticesPropertyToXml ⟨.verticesK, element.tag, .pylist []⟩
        = .ok ⟨element.tag, [], some ['\n'], none, []⟩
    ∧ verticesPropertyFromXml ⟨element.tag, [], some ['\n'], none, []⟩
        = .error (.valueErrorInvalid element.tag ("VerticesProperty").toList) := by
  obtain ⟨tg, a, tx, tl, ch⟩ := element
  refine ⟨?_, ?_, rfl, rfl⟩
  · intro hn
    have hn2 : tx = none := hn
    subst hn2
    rfl
  · intro s hs hstrip
    have hs2 : tx = some s := hs
    subst hs2
    simp only [verticesPropertyFromXml]
    rw [hstrip]
    rfl

/-- Witness for claim C10 at absent and whitespace-only texts. -/
theorem claimC10_witness :
    verticesPropertyFromXml ⟨("V").toList, [], none, none, []⟩ = .error .attributeError
    ∧ verticesPropertyFromXml ⟨("V").toList, [], some (" \n ").toList, none, []⟩
      = .error (.valueErrorInvalid ("V").toList ("VerticesProperty").toList) :=
  ⟨(claimC10_blank_text_fails ⟨("V").toList, [], none, none, []⟩).1 rfl,
    (claimC10_blank_text_fails ⟨("V").toList, [], some (" \n ").toList, none, []⟩).2.1
      (" \n ").toList rfl (by decide)⟩

end CodewalkerXml
